import Mathlib

/-! Verification of `mini-praw` (`src/mini_praw.py`), a read-only Reddit JSON
client.  We shallowly embed the pure logic of the module: the comment-tree
flattener `_flatten_comments` (with its inner `walk` closure and the
`_fetch_more_children` helper), the media extractor `_extract_media`, the
listing paginators (`Subreddit._listing` and `Reddit.search_subreddits`),
the record builders, and the HTTP wrapper `Reddit._get`.

External I/O (the HTTP transport) is modelled by oracle functions passed as
parameters: an oracle maps the request-determining data the code sends to
the parsed response (or a transport error).  Request parameters that the
claims never inspect and that do not influence control flow (the URL path,
the `link_id`, `sort=confidence`, `api_type`, the User-Agent header, the
timeout, and client-side rate-limiting sleeps) are absorbed into the oracle.
Python exceptions become `Except`; since Python recursion into freshly
fetched nodes and the `while True` page loops are not structurally
terminating, the embedding threads a fuel counter whose exhaustion is a
distinguished error (`.fuel`); fuel is consumed only where the Python
recursion is not structural (recursing into fetched "more" children,
looping to the next page), so every terminating Python run is reproduced
exactly by every sufficiently large fuel.
-/

namespace MiniPraw

/-- Transport-level failure: `RedditHTTPError`, raised by `Reddit._get` for a
non-success HTTP status (`mini_praw.py` lines 81–84). -/
inductive TransErr where
  | http (status : Nat)
deriving DecidableEq, Repr

/-- An HTTP response as seen by `Reddit._get`: the `resp.ok` flag and the
parsed JSON body (of whatever shape the endpoint returns). -/
structure HttpResp (J : Type) where
  ok : Bool
  status : Nat
  body : J
deriving Repr

/-- Function `Reddit._get` (lines 65–86): after throttling (a real-time effect, not
modelled), issue the GET; if `resp.ok` is false raise `RedditHTTPError`,
otherwise return the parsed JSON body. -/
def Reddit._get {J : Type} (resp : HttpResp J) : Except TransErr J :=
  if resp.ok then .ok resp.body else .error (.http resp.status)

/-- Errors of an embedded run: a propagated transport failure, or fuel
exhaustion (an artefact of the embedding, see the module comment). -/
inductive WErr where
  | net (e : TransErr)
  | fuel
deriving DecidableEq, Repr

/-- The scalar fields of a `t1` (comment) child's `"data"` dict that
`_flatten_comments.walk` reads (lines 313–339).  `parent_id` is the raw
upstream parent reference (a fullname such as `"t1_xxx"` / `"t3_xxx"`);
`none` models an absent key. -/
structure CData where
  id : String
  author : Option String := none
  body : Option String := none
  created_utc : Option Int := none
  ups : Option Int := none
  downs : Option Int := none
  parent_id : Option String := none
deriving DecidableEq, Repr

/-- One child ("thing") of a comments listing: a `t1` comment (with its
`data` and its `replies → data → children` forest, `[]` when the `replies`
field is absent/falsy or holds no children), a `more` placeholder (its
`data.children` id list, `[]` when absent/falsy — `data.get("children") or
[]`, line 350), or a child of any other kind, which `walk` ignores. -/
inductive Thing where
  | t1 (dat : CData) (replies : List Thing)
  | more (children : List String)
  | other (kind : Option String)
deriving Repr

/-- A flattened comment record as built by `walk` (lines 324–339). -/
structure CommentRec where
  id : String
  author : Option String
  body : String
  created_utc : Int
  created_date : Option String
  ups : Option Int
  downs : Option Int
  depth : Nat
  parent_fullname : Option String
  parent_id : Option String
  in_reply_to : Option String
  is_top_level : Bool
deriving DecidableEq, Repr

/-- Python `data.get("author") or None` (lines 224, 327, 508): an empty-string
author is normalized to `none`. -/
def orNone : Option String → Option String
  | some "" => none
  | x => x

/-- Python `str.lower()`: ASCII case folding over the character sequence. -/
def strLower (s : String) : String := String.mk (s.data.map Char.toLower)

/-- Python `str.startswith(pre)`: the character sequence begins with `pre`. -/
def strStartsWith (s pre : String) : Bool :=
  decide (s.data.take pre.data.length = pre.data)

/-- Python `str.endswith(suffix)`: the character sequence ends with `suffix`. -/
def strEndsWith (s suffix : String) : Bool :=
  decide (s.data.drop (s.data.length - suffix.data.length) = suffix.data ∧
    suffix.data.length ≤ s.data.length)

/-- Parent linkage (lines 313–322): from the raw `parent_id` fullname,
compute `(parent_comment_id, is_top_level)`.  The outer test models
Python's truthiness (`if parent_fullname:`). -/
def parentLink : Option String → Option String × Bool
  | none => (none, false)
  | some s =>
    if s = "" then (none, false)
    else if strStartsWith s "t1_" then (some (s.drop 3), false)
    else if strStartsWith s "t3_" then (none, true)
    else (none, false)

/-- The comment dict appended by `walk` (lines 324–339), given the node's
`data` and the current `depth_inner`.  `fmtDate` abstracts `_format_date`
(lines 9–14), whose calendar arithmetic lives in the external `datetime`
library. -/
def mkRec (fmtDate : Int → Option String) (dat : CData) (depth : Nat) : CommentRec :=
  { id := dat.id
    author := orNone dat.author
    body := dat.body.getD ""
    created_utc := dat.created_utc.getD 0
    created_date := fmtDate (dat.created_utc.getD 0)
    ups := dat.ups
    downs := dat.downs
    depth := depth
    parent_fullname := dat.parent_id
    parent_id := (parentLink dat.parent_id).1
    in_reply_to := (parentLink dat.parent_id).1
    is_top_level := (parentLink dat.parent_id).2 }

/-- Function `_fetch_more_children` (lines 266–286): given the placeholder's child
ids, return `[]` immediately when the list is empty, otherwise issue the
one `/api/morechildren.json` request (the oracle `net`; the `link_id`,
comma-joined `children`, `limit_children=False` and `sort=confidence`
parameters are functions of `child_ids` and constants, absorbed into the
oracle) and return the response's `json.data.things` list. -/
def _fetch_more_children (net : List String → Except TransErr (List Thing))
    (child_ids : List String) : Except TransErr (List Thing) :=
  if child_ids.isEmpty then .ok [] else net child_ids

/-- The budget test of line 347: `more_limit is not None and more_used >= more_limit`. -/
def budgetExhausted (more_limit : Option Nat) (more_used : Nat) : Bool :=
  match more_limit with
  | some k => more_used ≥ k
  | none => false

/-- The inner `walk` closure of `_flatten_comments` (lines 306–358).
State threaded explicitly: `more_used` (the expansion counter) and, to make
the external requests observable, the list of child-id groups fetched so
far (one entry per `_fetch_more_children` call issued from line 355).
Returns the records this call appends (in order) together with the final
state.  `fuel` bounds the nesting of expansions (consumed only when
recursing into a nonempty fetched forest, which is where the Python
recursion is not structural). -/
def walkF (net : List String → Except TransErr (List Thing))
    (fmtDate : Int → Option String) (more_limit : Option Nat) :
    Nat → List Thing → Nat → Nat → List (List String) →
    Except WErr (List CommentRec × Nat × List (List String))
  | _, [], _, more_used, reqs => .ok ([], more_used, reqs)
  | fuel, .t1 dat replies :: rest, depth, more_used, reqs => do
    let (rs1, u1, q1) ← walkF net fmtDate more_limit fuel replies (depth + 1) more_used reqs
    let (rs2, u2, q2) ← walkF net fmtDate more_limit fuel rest depth u1 q1
    .ok (mkRec fmtDate dat depth :: (rs1 ++ rs2), u2, q2)
  | fuel, .more ids :: rest, depth, more_used, reqs =>
    if budgetExhausted more_limit more_used then
      walkF net fmtDate more_limit fuel rest depth more_used reqs
    else if ids.isEmpty then
      walkF net fmtDate more_limit fuel rest depth more_used reqs
    else do
      let things ← (_fetch_more_children net ids).mapError WErr.net
      if things.isEmpty then
        walkF net fmtDate more_limit fuel rest depth (more_used + 1) (reqs ++ [ids])
      else
        match fuel with
        | 0 => .error .fuel
        | fuel' + 1 => do
          let (rs1, u1, q1) ←
            walkF net fmtDate more_limit fuel' things depth (more_used + 1) (reqs ++ [ids])
          let (rs2, u2, q2) ← walkF net fmtDate more_limit (fuel' + 1) rest depth u1 q1
          .ok (rs1 ++ rs2, u2, q2)
  | fuel, .other _ :: rest, depth, more_used, reqs =>
    walkF net fmtDate more_limit fuel rest depth more_used reqs
termination_by fuel things _ _ _ => (fuel, sizeOf things)

/-- Function `_flatten_comments` (lines 289–361): run the walk from the given depth
(0 at the call site, line 360) with counter 0 and return the flat record
list. -/
def _flatten_comments (net : List String → Except TransErr (List Thing))
    (fmtDate : Int → Option String) (children : List Thing)
    (more_limit : Option Nat) (fuel : Nat) (depth : Nat := 0) :
    Except WErr (List CommentRec) :=
  (walkF net fmtDate more_limit fuel children depth 0 []).map (·.1)

/-- Modelled from the spec: the *expanded forest* of a comment tree.  Each
placeholder that the walk would expand is replaced in place — at its own
level, as a run of siblings — by the (recursively expanded) nodes the
More-Fetcher reveals for it; skipped placeholders and unknown kinds
disappear.  Budget, request log and failure behaviour mirror the walk. -/
def expandT (net : List String → Except TransErr (List Thing)) (more_limit : Option Nat) :
    Nat → List Thing → Nat → List (List String) →
    Except WErr (List Thing × Nat × List (List String))
  | _, [], more_used, reqs => .ok ([], more_used, reqs)
  | fuel, .t1 dat replies :: rest, more_used, reqs => do
    let (r1, u1, q1) ← expandT net more_limit fuel replies more_used reqs
    let (r2, u2, q2) ← expandT net more_limit fuel rest u1 q1
    .ok (.t1 dat r1 :: r2, u2, q2)
  | fuel, .more ids :: rest, more_used, reqs =>
    if budgetExhausted more_limit more_used then
      expandT net more_limit fuel rest more_used reqs
    else if ids.isEmpty then
      expandT net more_limit fuel rest more_used reqs
    else do
      let things ← (_fetch_more_children net ids).mapError WErr.net
      if things.isEmpty then
        expandT net more_limit fuel rest (more_used + 1) (reqs ++ [ids])
      else
        match fuel with
        | 0 => .error .fuel
        | fuel' + 1 => do
          let (r1, u1, q1) ← expandT net more_limit fuel' things (more_used + 1) (reqs ++ [ids])
          let (r2, u2, q2) ← expandT net more_limit (fuel' + 1) rest u1 q1
          .ok (r1 ++ r2, u2, q2)
  | fuel, .other _ :: rest, more_used, reqs =>
    expandT net more_limit fuel rest more_used reqs
termination_by fuel things _ _ => (fuel, sizeOf things)

/-- Modelled from the spec: pre-order flattening of an (already expanded)
forest, annotating each comment with its structural nesting level: a node
walked at level `d` is recorded at depth `d` and its replies at `d + 1`,
so a record's depth is exactly its number of comment-level ancestors below
the submission when the forest is flattened from depth 0. -/
def pureFlatten (fmtDate : Int → Option String) : List Thing → Nat → List CommentRec
  | [], _ => []
  | .t1 dat replies :: rest, d =>
    mkRec fmtDate dat d :: (pureFlatten fmtDate replies (d + 1) ++ pureFlatten fmtDate rest d)
  | .more _ :: rest, d => pureFlatten fmtDate rest d
  | .other _ :: rest, d => pureFlatten fmtDate rest d

/-- The initial forest with every placeholder and unknown-kind node removed
(recursively): what a walk that expands nothing produces. -/
def pruneMore : List Thing → List Thing
  | [] => []
  | .t1 dat replies :: rest => .t1 dat (pruneMore replies) :: pruneMore rest
  | .more _ :: rest => pruneMore rest
  | .other _ :: rest => pruneMore rest

/-- Whether a forest contains, anywhere the walk reaches without fetching,
a placeholder with a nonempty child-id list (i.e. one that would trigger a
secondary request). -/
def hasMore : List Thing → Bool
  | [] => false
  | .t1 _ replies :: rest => hasMore replies || hasMore rest
  | .more ids :: rest => !ids.isEmpty || hasMore rest
  | .other _ :: rest => hasMore rest

/-! ## Media extraction (`_extract_media`, lines 367–427) -/

/-- An entry of a preview image's `source` or `resolutions` (only its
`url` key is read, lines 387 and 393). -/
structure PrevRes where
  url : Option String := none
deriving DecidableEq, Repr

/-- One entry of `preview.images`: `source` (absent/falsy modelled as
`none`) and `resolutions` (`img.get("resolutions") or []`). -/
structure PrevImage where
  source : Option PrevRes := none
  resolutions : List PrevRes := []
deriving DecidableEq, Repr

/-- The `preview` substructure: `preview.get("images") or []`. -/
structure Preview where
  images : List PrevImage := []
deriving DecidableEq, Repr

/-- One entry of `gallery_data.items` (only `media_id` is read). -/
structure GItem where
  media_id : Option String := none
deriving DecidableEq, Repr

/-- The `gallery_data` substructure: `gallery_data.get("items", [])`. -/
structure GalleryData where
  items : List GItem := []
deriving DecidableEq, Repr

/-- The still-image entry of a `media_metadata` value: `meta.s.u`. -/
structure MMetaS where
  u : Option String := none
deriving DecidableEq, Repr

/-- One `media_metadata` value (only its `s` key is read). -/
structure MMeta where
  s : Option MMetaS := none
deriving DecidableEq, Repr

/-- The `reddit_video` substructure (only `fallback_url` is read). -/
structure RVid where
  fallback_url : Option String := none
deriving DecidableEq, Repr

/-- A `media` / `secure_media` substructure (only `reddit_video` is read). -/
structure MediaObj where
  reddit_video : Option RVid := none
deriving DecidableEq, Repr

/-- The attribute bag of one submission, holding every key the module reads
(`_extract_media` lines 367–414 and the submission-dict builders, lines
216–242 and 500–524).  An `Option` field is `none` when the key is absent
or (where the code checks `isinstance(..., dict)`) not of the expected
shape.  `media_metadata` is a key→value map, modelled as an association
list with distinct keys.  Fields the code merely passes through keep a
representative type (`Int` for numeric JSON values). -/
structure SubInfo where
  id : String
  name : Option String := none
  title : Option String := none
  selftext : Option String := none
  permalink : Option String := none
  url : Option String := none
  created_utc : Option Int := none
  author : Option String := none
  score : Option Int := none
  ups : Option Int := none
  upvote_ratio : Option Int := none
  num_comments : Option Int := none
  thumbnail : Option String := none
  is_video : Option Bool := none
  media : Option MediaObj := none
  secure_media : Option MediaObj := none
  preview : Option Preview := none
  gallery_data : Option GalleryData := none
  media_metadata : Option (List (String × MMeta)) := none
deriving DecidableEq, Repr

/-- Output of `_extract_media` (lines 424–427). -/
structure MediaOut where
  media_urls : List String
  primary_media_url : Option String
deriving DecidableEq, Repr

/-- The media file extensions of line 379. -/
def mediaExts : List String := [".jpg", ".jpeg", ".png", ".gif", ".mp4", ".webm"]

/-- Step 1 (lines 377–380): the submission's own `url` (with `or ""`
defaulting), when it ends case-insensitively in a media extension. -/
def directCands (info : SubInfo) : List String :=
  let url := info.url.getD ""
  if mediaExts.any (fun ext => strEndsWith (strLower url) ext) then [url] else []

/-- Step 2 (lines 383–395): for each preview image, its `source.url` then
every `resolutions` entry's `url`, each with `&amp;` unescaped to `&`. -/
def previewCands (info : SubInfo) : List String :=
  match info.preview with
  | none => []
  | some p =>
    p.images.flatMap fun img =>
      (match img.source.bind PrevRes.url with
       | some src => [src.replace "&amp;" "&"]
       | none => []) ++
      img.resolutions.filterMap fun res =>
        res.url.map fun u => u.replace "&amp;" "&"

/-- Step 3 (lines 398–406): when both `gallery_data` and `media_metadata`
are present, each gallery item's metadata still-image url (`meta.s.u`),
unescaped, in item order. -/
def galleryCands (info : SubInfo) : List String :=
  match info.gallery_data, info.media_metadata with
  | some gd, some mm =>
    gd.items.filterMap fun item =>
      (item.media_id.bind fun mid => ((mm.lookup mid).bind MMeta.s).bind MMetaS.u).map
        fun src => src.replace "&amp;" "&"
  | _, _ => []

/-- Step 4 (lines 409–414): the reddit-hosted video `fallback_url` of
`media` (or, when that is absent, `secure_media`). -/
def videoCands (info : SubInfo) : List String :=
  match info.media <|> info.secure_media with
  | none => []
  | some m =>
    match m.reddit_video.bind RVid.fallback_url with
    | some fb => [fb]
    | none => []

/-- The full candidate accumulation of lines 375–414, in source order. -/
def rawMediaCandidates (info : SubInfo) : List String :=
  directCands info ++ previewCands info ++ galleryCands info ++ videoCands info

/-- The dedup pass of lines 417–422: walk the candidates with a seen-set,
keeping a candidate only on its first occurrence. -/
def dedupSeen : List String → List String → List String
  | [], _ => []
  | u :: rest, seen =>
    if u ∈ seen then dedupSeen rest seen else u :: dedupSeen rest (u :: seen)

/-- Function `_extract_media` (lines 367–427): candidates in precedence order,
deduplicated; `primary_media_url` is the first kept url, when any. -/
def _extract_media (info : SubInfo) : MediaOut :=
  { media_urls := dedupSeen (rawMediaCandidates info) []
    primary_media_url := (dedupSeen (rawMediaCandidates info) []).head? }

/-- Modelled from the spec: first-occurrence deduplication as a recurrence —
keep the head, then deduplicate the tail with all later copies of the head
removed. -/
def specDedup : List String → List String
  | [] => []
  | a :: l => a :: specDedup (l.filter (· ≠ a))
termination_by l => l.length
decreasing_by
  simp only [List.length_cons]
  exact Nat.lt_succ_of_le (List.length_filter_le _ _)

/-! ## Record builders and pagination -/

/-- The submission dict built by `Subreddit._listing` (lines 500–527). -/
structure SubDict where
  id : String
  title : String
  selftext : String
  permalink : String
  url : String
  created_utc : Int
  created_date : Option String
  author : Option String
  score : Option Int
  ups : Option Int
  upvote_ratio : Option Int
  num_comments : Option Int
  thumbnail : Option String
  is_video : Option Bool
  media : Option MediaObj
  preview : Option Preview
  gallery_data : Option GalleryData
  media_metadata : Option (List (String × MMeta))
  media_urls : List String
  primary_media_url : Option String
  raw : Option SubInfo
deriving DecidableEq, Repr

/-- Lines 496–527: normalize one listing child's `data` into a submission
dict; the `raw` key is attached exactly when `full` is true (line 527). -/
def mkSubDict (fmtDate : Int → Option String) (full : Bool) (info : SubInfo) : SubDict :=
  let media_info := _extract_media info
  { id := info.id
    title := info.title.getD ""
    selftext := info.selftext.getD ""
    permalink := info.permalink.getD ""
    url := info.url.getD ""
    created_utc := info.created_utc.getD 0
    created_date := fmtDate (info.created_utc.getD 0)
    author := orNone info.author
    score := info.score
    ups := info.ups
    upvote_ratio := info.upvote_ratio
    num_comments := info.num_comments
    thumbnail := info.thumbnail
    is_video := info.is_video
    media := info.media
    preview := info.preview
    gallery_data := info.gallery_data
    media_metadata := info.media_metadata
    media_urls := media_info.media_urls
    primary_media_url := media_info.primary_media_url
    raw := if full then some info else none }

/-- The `data` of one subreddit child of a search page (lines 134–142). -/
structure SRInfo where
  id : String
  display_name : String
  title : Option String := none
  subscribers : Option Int := none
  public_description : Option String := none
  url : Option String := none
deriving DecidableEq, Repr

/-- The subreddit dict built by `Reddit.search_subreddits` (lines 135–144). -/
structure SRDict where
  id : String
  name : String
  title : Option String
  subscribers : Option Int
  public_description : Option String
  url : Option String
  raw : Option SRInfo
deriving DecidableEq, Repr

/-- Lines 135–144: normalize one subreddit `data`; the `raw` key is
attached exactly when `full` is true. -/
def mkSRDict (full : Bool) (info : SRInfo) : SRDict :=
  { id := info.id
    name := info.display_name
    title := info.title
    subscribers := info.subscribers
    public_description := info.public_description
    url := info.url
    raw := if full then some info else none }

/-- One page of `/subreddits/search.json`: `data.children` (each child's
`data`) and the `data.after` continuation cursor. -/
structure SearchPage where
  children : List SRInfo
  after : Option String := none

/-- One child of a submission-listing page: its `kind` tag and `data`. -/
structure LChild where
  kind : Option String := none
  data : SubInfo

/-- One page of `/r/{name}/{sort}.json`. -/
structure ListPage where
  children : List LChild
  after : Option String := none

/-- Python truthiness of the stored cursor: `if after:` (lines 127, 154,
485, 537) treats `None` and `""` alike. -/
def truthyOpt : Option String → Option String
  | some s => if s = "" then none else some s
  | none => none

/-- The requested page size, `min(remaining, 100) if remaining is not None
else 100` (lines 125 and 483). -/
def reqLimit : Option Int → Int
  | some r => min r 100
  | none => 100

/-- The `for child in children` body of `search_subreddits` (lines
133–151): normalize and collect each child; when a budget is set,
decrement it after each collected item and return early (third component
`true`) once it reaches zero. -/
def searchPageItems (full : Bool) : List SRInfo → Option Int → List SRDict × Option Int × Bool
  | [], rem => ([], rem, false)
  | info :: rest, rem =>
    let d := mkSRDict full info
    match rem with
    | none =>
      let (ds, r, s) := searchPageItems full rest none
      (d :: ds, r, s)
    | some n =>
      if n - 1 ≤ 0 then ([d], some (n - 1), true)
      else
        let (ds, r, s) := searchPageItems full rest (some (n - 1))
        (d :: ds, r, s)

/-- The `while True` page loop of `search_subreddits` (lines 122–157).
The oracle `net` maps the cursor actually sent (absent on the first
request) and the requested page size to a page; the query string is fixed
per call and absorbed into the oracle.  `fuel` bounds the number of page
iterations (an embedding artefact; see the module comment). -/
def searchLoop (net : Option String → Int → Except TransErr SearchPage) (full : Bool) :
    Nat → Option String → Option Int → Except WErr (List SRDict)
  | 0, _, _ => .error .fuel
  | fuel + 1, after, rem => do
    let page ← (net (truthyOpt after) (reqLimit rem)).mapError WErr.net
    let (ds, rem', stop) := searchPageItems full page.children rem
    if stop then .ok ds
    else if truthyOpt page.after = none then .ok ds
    else if page.children.isEmpty then .ok ds
    else do
      let more ← searchLoop net full fuel page.after rem'
      .ok (ds ++ more)

/-- Function `Reddit.search_subreddits` (lines 91–157): resolve `full` (explicit
per-call value, else the client default, lines 115–116) and run the page
loop with no initial cursor and the full budget. -/
def Reddit.search_subreddits (net : Option String → Int → Except TransErr SearchPage)
    (limit : Option Int) (full : Option Bool) (return_full : Bool) (fuel : Nat) :
    Except WErr (List SRDict) :=
  searchLoop net (full.getD return_full) fuel none limit

/-- The `for child in children` body of `Subreddit._listing` (lines
493–534): skip any child whose `kind` is not `"t3"` (without touching the
budget); normalize and yield the rest, decrementing the budget and
stopping the generator (third component `true`) once it reaches zero. -/
def listingPageItems (fmtDate : Int → Option String) (full : Bool) :
    List LChild → Option Int → List SubDict × Option Int × Bool
  | [], rem => ([], rem, false)
  | child :: rest, rem =>
    if child.kind ≠ some "t3" then listingPageItems fmtDate full rest rem
    else
      let d := mkSubDict fmtDate full child.data
      match rem with
      | none =>
        let (ds, r, s) := listingPageItems fmtDate full rest none
        (d :: ds, r, s)
      | some n =>
        if n - 1 ≤ 0 then ([d], some (n - 1), true)
        else
          let (ds, r, s) := listingPageItems fmtDate full rest (some (n - 1))
          (d :: ds, r, s)

/-- The `while True` page loop of `Subreddit._listing` (lines 481–538).
The oracle maps (cursor sent, requested page size) to a page; the path
`/r/{name}/{sort}.json` and the `t` time-filter parameter (sent only for
`top`, line 487–488) are fixed per call and absorbed into the oracle. -/
def listingLoop (net : Option String → Int → Except TransErr ListPage)
    (fmtDate : Int → Option String) (full : Bool) :
    Nat → Option String → Option Int → Except WErr (List SubDict)
  | 0, _, _ => .error .fuel
  | fuel + 1, after, rem => do
    let page ← (net (truthyOpt after) (reqLimit rem)).mapError WErr.net
    let (ds, rem', stop) := listingPageItems fmtDate full page.children rem
    if stop then .ok ds
    else if truthyOpt page.after = none then .ok ds
    else if page.children.isEmpty then .ok ds
    else do
      let more ← listingLoop net fmtDate full fuel page.after rem'
      .ok (ds ++ more)

/-- Function `Subreddit._listing` (lines 464–538): resolve `full` against the
client default (lines 474–475) and run the page loop. -/
def Subreddit._listing (net : Option String → Int → Except TransErr ListPage)
    (fmtDate : Int → Option String) (limit : Option Int) (full : Option Bool)
    (return_full : Bool) (fuel : Nat) : Except WErr (List SubDict) :=
  listingLoop net fmtDate (full.getD return_full) fuel none limit

/-! ## Submission fetch (`Reddit.submission`, lines 175–260) -/

/-- The parsed `/comments/{id}.json` response: the link's `data` dict
(`raw[0]["data"]["children"][0]["data"]`) and the comments listing's
children (`raw[1]["data"]["children"]`). -/
structure RawResp where
  link : SubInfo
  comments : List Thing
deriving Repr

/-- Line 245: `link_info.get("name") or f"t3_{link_info['id']}"`. -/
def linkFullname (info : SubInfo) : String :=
  match orNone info.name with
  | some n => n
  | none => "t3_" ++ info.id

/-- The submission dict with comments (lines 216–258). -/
structure SubmissionOut where
  id : String
  title : String
  selftext : String
  permalink : String
  url : String
  created_utc : Int
  created_date : Option String
  author : Option String
  score : Option Int
  ups : Option Int
  upvote_ratio : Option Int
  num_comments : Option Int
  thumbnail : Option String
  is_video : Option Bool
  media : Option MediaObj
  preview : Option Preview
  gallery_data : Option GalleryData
  media_metadata : Option (List (String × MMeta))
  media_urls : List String
  primary_media_url : Option String
  comments : List CommentRec
  raw_response : Option RawResp
  raw_link : Option SubInfo
  raw_comments_listing : Option (List Thing)
deriving Repr

/-- Lines 216–258: build the submission dict from the parsed response and
the flattened comments; the three raw keys are attached exactly when
`full` is true (lines 255–258). -/
def submissionDict (fmtDate : Int → Option String) (full : Bool) (raw : RawResp)
    (comments_flat : List CommentRec) : SubmissionOut :=
  let info := raw.link
  let media_info := _extract_media info
  { id := info.id
    title := info.title.getD ""
    selftext := info.selftext.getD ""
    permalink := info.permalink.getD ""
    url := info.url.getD ""
    created_utc := info.created_utc.getD 0
    created_date := fmtDate (info.created_utc.getD 0)
    author := orNone info.author
    score := info.score
    ups := info.ups
    upvote_ratio := info.upvote_ratio
    num_comments := info.num_comments
    thumbnail := info.thumbnail
    is_video := info.is_video
    media := info.media
    preview := info.preview
    gallery_data := info.gallery_data
    media_metadata := info.media_metadata
    media_urls := media_info.media_urls
    primary_media_url := media_info.primary_media_url
    comments := comments_flat
    raw_response := if full then some raw else none
    raw_link := if full then some info else none
    raw_comments_listing := if full then some raw.comments else none }

/-- Function `Reddit.submission` (lines 175–260): resolve `full`, fetch the
comments-endpoint response (`netGet`, the `_get` of line 210), flatten the
comment tree (expanding placeholders through `netMore`, keyed by the
link's fullname), and build the dict. -/
def Reddit.submission (netGet : Except TransErr RawResp)
    (netMore : String → List String → Except TransErr (List Thing))
    (fmtDate : Int → Option String) (more_limit : Option Nat)
    (full : Option Bool) (return_full : Bool) (fuel : Nat) :
    Except WErr SubmissionOut := do
  let f := full.getD return_full
  let raw ← netGet.mapError WErr.net
  let comments_flat ←
    _flatten_comments (netMore (linkFullname raw.link)) fmtDate raw.comments more_limit fuel
  .ok (submissionDict fmtDate f raw comments_flat)

/-! ## Deduplication lemmas -/

theorem dedupSeen_sublist : ∀ (l seen : List String), List.Sublist (dedupSeen l seen) l := by
  intro l
  induction l with
  | nil => intro seen; simp [dedupSeen]
  | cons u rest ih =>
    intro seen
    by_cases h : u ∈ seen
    · simp only [dedupSeen, if_pos h]
      exact (ih seen).cons u
    · simp only [dedupSeen, if_neg h]
      exact (ih (u :: seen)).cons₂ u

theorem mem_dedupSeen : ∀ (l seen : List String) (x : String),
    x ∈ dedupSeen l seen ↔ x ∈ l ∧ x ∉ seen := by
  intro l
  induction l with
  | nil => intro seen x; simp [dedupSeen]
  | cons u rest ih =>
    intro seen x
    by_cases h : u ∈ seen
    · simp only [dedupSeen, if_pos h, ih, List.mem_cons]
      constructor
      · rintro ⟨hx, hns⟩; exact ⟨Or.inr hx, hns⟩
      · rintro ⟨hx | hx, hns⟩
        · exact absurd (hx ▸ h) hns
        · exact ⟨hx, hns⟩
    · simp only [dedupSeen, if_neg h, List.mem_cons, ih]
      by_cases hxu : x = u <;> simp [hxu, h]

theorem dedupSeen_nodup : ∀ (l seen : List String), (dedupSeen l seen).Nodup := by
  intro l
  induction l with
  | nil => intro seen; simp [dedupSeen]
  | cons u rest ih =>
    intro seen
    by_cases h : u ∈ seen
    · simp only [dedupSeen, if_pos h]; exact ih seen
    · simp only [dedupSeen, if_neg h, List.nodup_cons]
      refine ⟨fun hmem => ?_, ih (u :: seen)⟩
      exact ((mem_dedupSeen rest (u :: seen) u).1 hmem).2 (List.mem_cons_self u seen)

theorem dedupSeen_eq_specDedup_filter : ∀ (l seen : List String),
    dedupSeen l seen = specDedup (l.filter fun x => decide (x ∉ seen)) := by
  intro l
  induction l with
  | nil => intro seen; simp [dedupSeen, specDedup]
  | cons u rest ih =>
    intro seen
    by_cases h : u ∈ seen
    · simp only [dedupSeen, if_pos h, List.filter_cons, decide_eq_true_eq]
      rw [if_neg (by simp [h])]
      exact ih seen
    · simp only [dedupSeen, if_neg h, List.filter_cons]
      rw [if_pos (by simp [h])]
      rw [specDedup, ih (u :: seen)]
      have hf : (List.filter (fun x => decide (x ∉ u :: seen)) rest)
          = List.filter (fun x => decide (x ≠ u))
              (List.filter (fun x => decide (x ∉ seen)) rest) := by
        rw [List.filter_filter]
        apply List.filter_congr
        intro x _
        by_cases hxu : x = u <;> by_cases hxs : x ∈ seen <;> simp [hxu, hxs]
      rw [hf]

theorem dedupSeen_eq_specDedup (l : List String) : dedupSeen l [] = specDedup l := by
  rw [dedupSeen_eq_specDedup_filter]
  congr 1
  simp

/-! ## Walk lemmas -/

@[simp] theorem except_bind_ok {ε α β : Type} (a : α) (f : α → Except ε β) :
    (Except.ok a >>= f : Except ε β) = f a := rfl

@[simp] theorem except_bind_error {ε α β : Type} (e : ε) (f : α → Except ε β) :
    (Except.error e >>= f : Except ε β) = .error e := rfl

@[simp] theorem except_map_ok {ε α β : Type} (f : α → β) (a : α) :
    Except.map f (Except.ok a : Except ε α) = .ok (f a) := rfl

@[simp] theorem except_map_error {ε α β : Type} (f : α → β) (e : ε) :
    Except.map f (Except.error e : Except ε α) = .error e := rfl

@[simp] theorem except_mapError_ok {ε δ α : Type} (f : ε → δ) (a : α) :
    Except.mapError f (Except.ok a : Except ε α) = .ok a := rfl

@[simp] theorem except_mapError_error {ε δ α : Type} (f : ε → δ) (e : ε) :
    Except.mapError f (Except.error e : Except ε α) = .error (f e) := rfl

theorem pureFlatten_append (fmtDate : Int → Option String) :
    ∀ (a b : List Thing) (d : Nat),
    pureFlatten fmtDate (a ++ b) d = pureFlatten fmtDate a d ++ pureFlatten fmtDate b d := by
  intro a
  induction a with
  | nil => intro b d; simp [pureFlatten]
  | cons t rest ih =>
    intro b d
    cases t with
    | t1 dat replies => simp [pureFlatten, ih]
    | more ids => simp [pureFlatten, ih]
    | other k => simp [pureFlatten, ih]

/-- The walk is the pre-order, depth-annotated flattening of the expanded
forest: expanding placeholders in place (at their own level) and then
reading depths off the tree structure reproduces `walk` exactly, record
for record, including the expansion counter, the request log, and the
failure behaviour. -/
theorem walkF_eq_expandT (net : List String → Except TransErr (List Thing))
    (fmtDate : Int → Option String) (more_limit : Option Nat) :
    ∀ (fuel : Nat) (things : List Thing) (depth more_used : Nat) (reqs : List (List String)),
    walkF net fmtDate more_limit fuel things depth more_used reqs =
      (expandT net more_limit fuel things more_used reqs).map
        fun x => (pureFlatten fmtDate x.1 depth, x.2) := by
  intro fuel things depth more_used reqs
  induction fuel, things, depth, more_used, reqs using walkF.induct net fmtDate more_limit with
  | case1 fuel depth more_used reqs =>
    simp [walkF, expandT, pureFlatten, Except.map]
  | case2 fuel dat replies rest depth more_used reqs ih1 ih2 =>
    simp only [walkF, expandT]
    cases he1 : expandT net more_limit fuel replies more_used reqs with
    | error e =>
      rw [he1] at ih1
      simp [ih1]
    | ok r1 =>
      obtain ⟨F1, u1, q1⟩ := r1
      rw [he1] at ih1
      cases he2 : expandT net more_limit fuel rest u1 q1 with
      | error e =>
        have ih2' := ih2 u1 q1
        rw [he2] at ih2'
        simp [ih1, ih2', he2]
      | ok r2 =>
        obtain ⟨F2, u2, q2⟩ := r2
        have ih2' := ih2 u1 q1
        rw [he2] at ih2'
        simp [ih1, ih2', he2, pureFlatten, pureFlatten_append]
  | case3 fuel ids rest depth more_used reqs h ih =>
    simp only [walkF, expandT, if_pos h]
    exact ih
  | case4 fuel ids rest depth more_used reqs h1 h2 ih =>
    simp only [walkF, expandT, if_neg h1, if_pos h2]
    exact ih
  | case5 fuel ids rest depth more_used reqs h1 h2 ih0 ihm =>
    simp only [walkF, expandT, if_neg h1, if_neg h2, _fetch_more_children, if_neg h2]
    cases hn : net ids with
    | error e => simp [hn]
    | ok things =>
      by_cases ht : things.isEmpty
      · simp only [hn, except_mapError_ok, except_bind_ok, if_pos ht]
        exact ih0
      · cases fuel with
        | zero => simp [hn, if_neg ht]
        | succ fuel' =>
          have ihm' := ihm things
          simp only at ihm'
          obtain ⟨ihA, ihB⟩ := ihm'
          simp only [hn, except_mapError_ok, except_bind_ok, if_neg ht]
          cases heA : expandT net more_limit fuel' things (more_used + 1) (reqs ++ [ids]) with
          | error e =>
            rw [heA] at ihA
            simp [ihA, heA]
          | ok rA =>
            obtain ⟨FA, uA, qA⟩ := rA
            rw [heA] at ihA
            cases heB : expandT net more_limit (fuel' + 1) rest uA qA with
            | error e =>
              have ihB' := ihB uA qA
              rw [heB] at ihB'
              simp [ihA, ihB', heA, heB]
            | ok rB =>
              obtain ⟨FB, uB, qB⟩ := rB
              have ihB' := ihB uA qA
              rw [heB] at ihB'
              simp [ihA, ihB', heA, heB, pureFlatten_append]
  | case6 fuel kind rest depth more_used reqs ih =>
    simp only [walkF, expandT]
    exact ih

/-- Every successful expansion pass extends the request log by one group
per consumed budget unit: the final counter exceeds the initial one by
exactly the number of new request-log entries. -/
theorem expandT_state (net : List String → Except TransErr (List Thing))
    (more_limit : Option Nat) :
    ∀ (fuel : Nat) (things : List Thing) (more_used : Nat) (reqs : List (List String))
      (F' : List Thing) (u' : Nat) (q' : List (List String)),
    expandT net more_limit fuel things more_used reqs = .ok (F', u', q') →
    ∃ qe, q' = reqs ++ qe ∧ u' = more_used + qe.length := by
  intro fuel things more_used reqs
  induction fuel, things, more_used, reqs using expandT.induct net more_limit with
  | case1 fuel more_used reqs =>
    intro F' u' q' h
    simp only [expandT, Except.ok.injEq, Prod.mk.injEq] at h
    exact ⟨[], by simp [h.2.2.symm, h.2.1.symm]⟩
  | case2 fuel dat replies rest more_used reqs ih1 ih2 =>
    intro F' u' q' h
    simp only [expandT] at h
    cases he1 : expandT net more_limit fuel replies more_used reqs with
    | error e => rw [he1] at h; simp at h
    | ok r1 =>
      obtain ⟨F1, u1, q1⟩ := r1
      rw [he1] at h
      simp only [except_bind_ok] at h
      cases he2 : expandT net more_limit fuel rest u1 q1 with
      | error e => rw [he2] at h; simp at h
      | ok r2 =>
        obtain ⟨F2, u2, q2⟩ := r2
        rw [he2] at h
        simp only [except_bind_ok, Except.ok.injEq, Prod.mk.injEq] at h
        obtain ⟨qe1, hq1, hu1⟩ := ih1 _ _ _ he1
        obtain ⟨qe2, hq2, hu2⟩ := ih2 u1 q1 _ _ _ he2
        refine ⟨qe1 ++ qe2, ?_, ?_⟩
        · rw [← h.2.2, hq2, hq1, List.append_assoc]
        · rw [← h.2.1, hu2, hu1]
          simp [Nat.add_assoc]
  | case3 fuel ids rest more_used reqs hb ih =>
    intro F' u' q' h
    simp only [expandT, if_pos hb] at h
    exact ih _ _ _ h
  | case4 fuel ids rest more_used reqs h1 h2 ih =>
    intro F' u' q' h
    simp only [expandT, if_neg h1, if_pos h2] at h
    exact ih _ _ _ h
  | case5 fuel ids rest more_used reqs h1 h2 ih0 ihm =>
    intro F' u' q' h
    simp only [expandT, if_neg h1, if_neg h2, _fetch_more_children, if_neg h2] at h
    cases hn : net ids with
    | error e => rw [hn] at h; simp at h
    | ok things =>
      rw [hn] at h
      simp only [except_mapError_ok, except_bind_ok] at h
      by_cases ht : things.isEmpty
      · rw [if_pos ht] at h
        obtain ⟨qe, hq, hu⟩ := ih0 _ _ _ h
        refine ⟨ids :: qe, ?_, ?_⟩
        · rw [hq, List.append_assoc]; rfl
        · rw [hu]; simp [Nat.add_comm, Nat.add_assoc, Nat.add_left_comm]
      · rw [if_neg ht] at h
        cases fuel with
        | zero => simp at h
        | succ fuel' =>
          simp only at h
          have ihm' := ihm things
          simp only at ihm'
          obtain ⟨ihA, ihB⟩ := ihm'
          cases heA : expandT net more_limit fuel' things (more_used + 1) (reqs ++ [ids]) with
          | error e => rw [heA] at h; simp at h
          | ok rA =>
            obtain ⟨FA, uA, qA⟩ := rA
            rw [heA] at h
            simp only [except_bind_ok] at h
            cases heB : expandT net more_limit (fuel' + 1) rest uA qA with
            | error e => rw [heB] at h; simp at h
            | ok rB =>
              obtain ⟨FB, uB, qB⟩ := rB
              rw [heB] at h
              simp only [except_bind_ok, Except.ok.injEq, Prod.mk.injEq] at h
              obtain ⟨qeA, hqA, huA⟩ := ihA _ _ _ heA
              obtain ⟨qeB, hqB, huB⟩ := ihB uA qA _ _ _ heB
              refine ⟨ids :: (qeA ++ qeB), ?_, ?_⟩
              · rw [← h.2.2, hqB, hqA]
                simp
              · rw [← h.2.1, huB, huA]
                simp only [List.length_cons, List.length_append]
                omega
  | case6 fuel kind rest more_used reqs ih =>
    intro F' u' q' h
    simp only [expandT] at h
    exact ih _ _ _ h

/-- Under a finite budget `k`, the expansion counter never exceeds `k`. -/
theorem expandT_bound (net : List String → Except TransErr (List Thing)) (k : Nat) :
    ∀ (fuel : Nat) (things : List Thing) (more_used : Nat) (reqs : List (List String))
      (F' : List Thing) (u' : Nat) (q' : List (List String)),
    more_used ≤ k →
    expandT net (some k) fuel things more_used reqs = .ok (F', u', q') →
    u' ≤ k := by
  intro fuel things more_used reqs
  induction fuel, things, more_used, reqs using expandT.induct net (some k) with
  | case1 fuel more_used reqs =>
    intro F' u' q' hk h
    simp only [expandT, Except.ok.injEq, Prod.mk.injEq] at h
    omega
  | case2 fuel dat replies rest more_used reqs ih1 ih2 =>
    intro F' u' q' hk h
    simp only [expandT] at h
    cases he1 : expandT net (some k) fuel replies more_used reqs with
    | error e => rw [he1] at h; simp at h
    | ok r1 =>
      obtain ⟨F1, u1, q1⟩ := r1
      rw [he1] at h
      simp only [except_bind_ok] at h
      cases he2 : expandT net (some k) fuel rest u1 q1 with
      | error e => rw [he2] at h; simp at h
      | ok r2 =>
        obtain ⟨F2, u2, q2⟩ := r2
        rw [he2] at h
        simp only [except_bind_ok, Except.ok.injEq, Prod.mk.injEq] at h
        have hu1 : u1 ≤ k := ih1 _ _ _ hk he1
        have hu2 : u2 ≤ k := ih2 u1 q1 _ _ _ hu1 he2
        omega
  | case3 fuel ids rest more_used reqs hb ih =>
    intro F' u' q' hk h
    simp only [expandT, if_pos hb] at h
    exact ih _ _ _ hk h
  | case4 fuel ids rest more_used reqs h1 h2 ih =>
    intro F' u' q' hk h
    simp only [expandT, if_neg h1, if_pos h2] at h
    exact ih _ _ _ hk h
  | case5 fuel ids rest more_used reqs h1 h2 ih0 ihm =>
    intro F' u' q' hk h
    have hlt : more_used < k := by
      simp only [budgetExhausted, ge_iff_le, decide_eq_true_eq] at h1
      omega
    simp only [expandT, if_neg h1, if_neg h2, _fetch_more_children, if_neg h2] at h
    cases hn : net ids with
    | error e => rw [hn] at h; simp at h
    | ok things =>
      rw [hn] at h
      simp only [except_mapError_ok, except_bind_ok] at h
      by_cases ht : things.isEmpty
      · rw [if_pos ht] at h
        exact ih0 _ _ _ (by omega) h
      · rw [if_neg ht] at h
        cases fuel with
        | zero => simp at h
        | succ fuel' =>
          simp only at h
          have ihm' := ihm things
          simp only at ihm'
          obtain ⟨ihA, ihB⟩ := ihm'
          cases heA : expandT net (some k) fuel' things (more_used + 1) (reqs ++ [ids]) with
          | error e => rw [heA] at h; simp at h
          | ok rA =>
            obtain ⟨FA, uA, qA⟩ := rA
            rw [heA] at h
            simp only [except_bind_ok] at h
            cases heB : expandT net (some k) (fuel' + 1) rest uA qA with
            | error e => rw [heB] at h; simp at h
            | ok rB =>
              obtain ⟨FB, uB, qB⟩ := rB
              rw [heB] at h
              simp only [except_bind_ok, Except.ok.injEq, Prod.mk.injEq] at h
              have huA : uA ≤ k := ihA _ _ _ (by omega) heA
              have huB : uB ≤ k := ihB uA qA _ _ _ huA heB
              omega
  | case6 fuel kind rest more_used reqs ih =>
    intro F' u' q' hk h
    simp only [expandT] at h
    exact ih _ _ _ hk h

/-- With budget 0 the expansion pass expands nothing: it simply prunes
every placeholder (and unknown-kind node), leaving counter and request log
untouched, for any oracle. -/
theorem expandT_budget0 (net : List String → Except TransErr (List Thing)) :
    ∀ (fuel : Nat) (things : List Thing) (more_used : Nat) (reqs : List (List String)),
    expandT net (some 0) fuel things more_used reqs = .ok (pruneMore things, more_used, reqs) := by
  intro fuel things more_used reqs
  induction fuel, things, more_used, reqs using expandT.induct net (some 0) with
  | case1 fuel more_used reqs => simp [expandT, pruneMore]
  | case2 fuel dat replies rest more_used reqs ih1 ih2 =>
    simp only [expandT, ih1, except_bind_ok, ih2, pruneMore]
  | case3 fuel ids rest more_used reqs hb ih =>
    simp only [expandT, if_pos hb, ih, pruneMore]
  | case4 fuel ids rest more_used reqs h1 h2 ih =>
    exact absurd (by simp [budgetExhausted]) h1
  | case5 fuel ids rest more_used reqs h1 h2 ih0 ihm =>
    exact absurd (by simp [budgetExhausted]) h1
  | case6 fuel kind rest more_used reqs ih =>
    simp only [expandT, ih, pruneMore]

/-- A run with no budget is reproduced verbatim by any finite budget at
least as large as the number of groups the run expands: `more_limit =
None` imposes no restriction of its own. -/
theorem expandT_none_eq_some (net : List String → Except TransErr (List Thing)) :
    ∀ (fuel : Nat) (things : List Thing) (more_used : Nat) (reqs : List (List String))
      (F' : List Thing) (u' : Nat) (q' : List (List String)),
    expandT net none fuel things more_used reqs = .ok (F', u', q') →
    ∀ k, u' ≤ k →
    expandT net (some k) fuel things more_used reqs = .ok (F', u', q') := by
  intro fuel things more_used reqs
  induction fuel, things, more_used, reqs using expandT.induct net none with
  | case1 fuel more_used reqs =>
    intro F' u' q' h k hk
    simpa [expandT] using h
  | case2 fuel dat replies rest more_used reqs ih1 ih2 =>
    intro F' u' q' h k hk
    simp only [expandT] at h ⊢
    cases he1 : expandT net none fuel replies more_used reqs with
    | error e => rw [he1] at h; simp at h
    | ok r1 =>
      obtain ⟨F1, u1, q1⟩ := r1
      rw [he1] at h
      simp only [except_bind_ok] at h
      cases he2 : expandT net none fuel rest u1 q1 with
      | error e => rw [he2] at h; simp at h
      | ok r2 =>
        obtain ⟨F2, u2, q2⟩ := r2
        rw [he2] at h
        simp only [except_bind_ok, Except.ok.injEq, Prod.mk.injEq] at h
        obtain ⟨qe2, _, hu2⟩ := expandT_state net none _ _ _ _ _ _ _ he2
        have hk1 : u1 ≤ k := by omega
        have hk2 : u2 ≤ k := by omega
        rw [ih1 _ _ _ he1 k hk1, except_bind_ok, ih2 u1 q1 _ _ _ he2 k hk2]
        simp [h.1, h.2.1, h.2.2]
  | case3 fuel ids rest more_used reqs hb ih =>
    intro F' u' q' h k hk
    exact absurd hb (by simp [budgetExhausted])
  | case4 fuel ids rest more_used reqs h1 h2 ih =>
    intro F' u' q' h k hk
    simp only [expandT, if_neg h1, if_pos h2] at h
    have := ih _ _ _ h k hk
    by_cases hb : budgetExhausted (some k) more_used
    · simp only [expandT, if_pos hb]
      exact this
    · simp only [expandT, if_neg hb, if_pos h2]
      exact this
  | case5 fuel ids rest more_used reqs h1 h2 ih0 ihm =>
    intro F' u' q' h k hk
    simp only [expandT, if_neg h1, if_neg h2, _fetch_more_children, if_neg h2] at h
    cases hn : net ids with
    | error e => rw [hn] at h; simp at h
    | ok things =>
      rw [hn] at h
      simp only [except_mapError_ok, except_bind_ok] at h
      by_cases ht : things.isEmpty
      · rw [if_pos ht] at h
        obtain ⟨qe, _, hu⟩ := expandT_state net none _ _ _ _ _ _ _ h
        have hb : ¬budgetExhausted (some k) more_used = true := by
          simp only [budgetExhausted, ge_iff_le, decide_eq_true_eq]
          omega
        have := ih0 _ _ _ h k hk
        simp only [expandT, if_neg hb, if_neg h2, _fetch_more_children, if_neg h2, hn,
          except_mapError_ok, except_bind_ok, if_pos ht]
        exact this
      · rw [if_neg ht] at h
        cases fuel with
        | zero => simp at h
        | succ fuel' =>
          simp only at h
          have ihm' := ihm things
          simp only at ihm'
          obtain ⟨ihA, ihB⟩ := ihm'
          cases heA : expandT net none fuel' things (more_used + 1) (reqs ++ [ids]) with
          | error e => rw [heA] at h; simp at h
          | ok rA =>
            obtain ⟨FA, uA, qA⟩ := rA
            rw [heA] at h
            simp only [except_bind_ok] at h
            cases heB : expandT net none (fuel' + 1) rest uA qA with
            | error e => rw [heB] at h; simp at h
            | ok rB =>
              obtain ⟨FB, uB, qB⟩ := rB
              rw [heB] at h
              simp only [except_bind_ok, Except.ok.injEq, Prod.mk.injEq] at h
              obtain ⟨qeA, _, huA⟩ := expandT_state net none _ _ _ _ _ _ _ heA
              obtain ⟨qeB, _, huB⟩ := expandT_state net none _ _ _ _ _ _ _ heB
              have hb : ¬budgetExhausted (some k) more_used = true := by
                simp only [budgetExhausted, ge_iff_le, decide_eq_true_eq]
                omega
              have hA' := ihA _ _ _ heA k (by omega)
              have hB' := ihB uA qA _ _ _ heB k (by omega)
              simp only [expandT, if_neg hb, if_neg h2, _fetch_more_children, if_neg h2, hn,
                except_mapError_ok, except_bind_ok, if_neg ht, hA', hB']
              simp [h.1, h.2.1, h.2.2]
  | case6 fuel kind rest more_used reqs ih =>
    intro F' u' q' h k hk
    simp only [expandT] at h
    simp only [expandT]
    exact ih _ _ _ h k hk

/-- With an always-failing More-Fetcher and no budget cap, the expansion
pass fails with exactly that transport error as soon as the initial forest
contains any placeholder with a nonempty id list, and otherwise just
prunes the forest. -/
theorem expandT_err (e : TransErr) :
    ∀ (fuel : Nat) (things : List Thing) (more_used : Nat) (reqs : List (List String)),
    expandT (fun _ => .error e) none fuel things more_used reqs =
      if hasMore things then .error (.net e)
      else .ok (pruneMore things, more_used, reqs) := by
  intro fuel things more_used reqs
  induction fuel, things, more_used, reqs using expandT.induct (fun _ => .error e) none with
  | case1 fuel more_used reqs => simp [expandT, hasMore, pruneMore]
  | case2 fuel dat replies rest more_used reqs ih1 ih2 =>
    simp only [expandT, ih1, hasMore]
    by_cases hm1 : hasMore replies
    · simp [hm1]
    · simp only [hm1, if_false, Bool.false_or, except_bind_ok, ih2]
      by_cases hm2 : hasMore rest
      · simp [hm2]
      · simp [hm2, pruneMore]
  | case3 fuel ids rest more_used reqs hb ih =>
    exact absurd hb (by simp [budgetExhausted])
  | case4 fuel ids rest more_used reqs h1 h2 ih =>
    simp only [expandT, if_neg h1, if_pos h2, ih]
    simp [hasMore, h2, pruneMore]
  | case5 fuel ids rest more_used reqs h1 h2 ih0 ihm =>
    have hids : ¬ids.isEmpty = true := h2
    simp only [expandT, if_neg h1, if_neg h2, _fetch_more_children, if_neg h2,
      except_mapError_error, except_bind_error, hasMore]
    simp [hids]
  | case6 fuel kind rest more_used reqs ih =>
    simp only [expandT, ih, hasMore, pruneMore]

/-! ## Paginator lemmas -/

/-- Per-page accounting for the search item loop: under a positive budget
`n` at most `n` items are collected, the outgoing budget is the incoming
one minus the number of collected items, and a non-early-returning pass
leaves at least one unit of budget. -/
theorem searchPageItems_spec (full : Bool) :
    ∀ (ch : List SRInfo) (n : Int) (ds : List SRDict) (rem' : Option Int) (stop : Bool),
    1 ≤ n → searchPageItems full ch (some n) = (ds, rem', stop) →
    (ds.length : Int) ≤ n ∧ rem' = some (n - ds.length) ∧
      (stop = false → 1 ≤ n - ds.length) := by
  intro ch
  induction ch with
  | nil =>
    intro n ds rem' stop hn h
    simp only [searchPageItems, Prod.mk.injEq] at h
    obtain ⟨h1, h2, h3⟩ := h
    subst h1; subst h2; subst h3
    simp
    omega
  | cons info rest ih =>
    intro n ds rem' stop hn h
    simp only [searchPageItems] at h
    by_cases hstop : n - 1 ≤ 0
    · rw [if_pos hstop] at h
      simp only [Prod.mk.injEq] at h
      obtain ⟨h1, h2, h3⟩ := h
      subst h1; subst h2; subst h3
      simp
      omega
    · rw [if_neg hstop] at h
      rcases hrec : searchPageItems full rest (some (n - 1)) with ⟨ds', r', s'⟩
      rw [hrec] at h
      simp only [Prod.mk.injEq] at h
      obtain ⟨h1, h2, h3⟩ := h
      subst h1; subst h2; subst h3
      obtain ⟨hlen, hrem, hs⟩ := ih (n - 1) ds' r' s' (by omega) hrec
      refine ⟨?_, ?_, ?_⟩
      · simp only [List.length_cons]
        push_cast
        omega
      · rw [hrem]
        simp only [List.length_cons]
        congr 1
        push_cast
        omega
      · intro hsf
        have := hs hsf
        simp only [List.length_cons]
        push_cast
        omega

/-- Per-page accounting for the listing item loop (as for search; children
of a kind other than `"t3"` are skipped without touching the budget). -/
theorem listingPageItems_spec (fmtDate : Int → Option String) (full : Bool) :
    ∀ (ch : List LChild) (n : Int) (ds : List SubDict) (rem' : Option Int) (stop : Bool),
    1 ≤ n → listingPageItems fmtDate full ch (some n) = (ds, rem', stop) →
    (ds.length : Int) ≤ n ∧ rem' = some (n - ds.length) ∧
      (stop = false → 1 ≤ n - ds.length) := by
  intro ch
  induction ch with
  | nil =>
    intro n ds rem' stop hn h
    simp only [listingPageItems, Prod.mk.injEq] at h
    obtain ⟨h1, h2, h3⟩ := h
    subst h1; subst h2; subst h3
    simp
    omega
  | cons child rest ih =>
    intro n ds rem' stop hn h
    simp only [listingPageItems] at h
    by_cases hk : child.kind ≠ some "t3"
    · rw [if_pos hk] at h
      exact ih n ds rem' stop hn h
    · rw [if_neg hk] at h
      by_cases hstop : n - 1 ≤ 0
      · rw [if_pos hstop] at h
        simp only [Prod.mk.injEq] at h
        obtain ⟨h1, h2, h3⟩ := h
        subst h1; subst h2; subst h3
        simp
        omega
      · rw [if_neg hstop] at h
        rcases hrec : listingPageItems fmtDate full rest (some (n - 1)) with ⟨ds', r', s'⟩
        rw [hrec] at h
        simp only [Prod.mk.injEq] at h
        obtain ⟨h1, h2, h3⟩ := h
        subst h1; subst h2; subst h3
        obtain ⟨hlen, hrem, hs⟩ := ih (n - 1) ds' r' s' (by omega) hrec
        refine ⟨?_, ?_, ?_⟩
        · simp only [List.length_cons]
          push_cast
          omega
        · rw [hrem]
          simp only [List.length_cons]
          congr 1
          push_cast
          omega
        · intro hsf
          have := hs hsf
          simp only [List.length_cons]
          push_cast
          omega

/-- The search page loop never yields more items than a positive budget. -/
theorem searchLoop_bound (net : Option String → Int → Except TransErr SearchPage)
    (full : Bool) :
    ∀ (fuel : Nat) (after : Option String) (n : Int) (out : List SRDict),
    1 ≤ n → searchLoop net full fuel after (some n) = .ok out →
    (out.length : Int) ≤ n := by
  intro fuel
  induction fuel with
  | zero =>
    intro after n out hn h
    simp [searchLoop] at h
  | succ fuel ih =>
    intro after n out hn h
    simp only [searchLoop] at h
    cases hp : net (truthyOpt after) (reqLimit (some n)) with
    | error e => rw [hp] at h; simp at h
    | ok page =>
      rw [hp] at h
      simp only [except_mapError_ok, except_bind_ok] at h
      rcases hpi : searchPageItems full page.children (some n) with ⟨ds, rem', stop⟩
      rw [hpi] at h
      obtain ⟨hlen, hrem, hstop⟩ := searchPageItems_spec full page.children n ds rem' stop hn hpi
      simp only at h
      by_cases hs : stop = true
      · rw [if_pos hs] at h
        simp only [Except.ok.injEq] at h
        subst h
        exact hlen
      · rw [if_neg hs] at h
        by_cases ha : truthyOpt page.after = none
        · rw [if_pos ha] at h
          simp only [Except.ok.injEq] at h
          subst h
          exact hlen
        · rw [if_neg ha] at h
          by_cases hc : page.children.isEmpty
          · rw [if_pos hc] at h
            simp only [Except.ok.injEq] at h
            subst h
            exact hlen
          · rw [if_neg hc] at h
            subst hrem
            cases hrec : searchLoop net full fuel page.after (some (n - ds.length)) with
            | error e => rw [hrec] at h; simp at h
            | ok more =>
              rw [hrec] at h
              simp only [except_bind_ok, Except.ok.injEq] at h
              subst h
              have h1 : 1 ≤ n - (ds.length : Int) := hstop (by simpa using hs)
              have h2 := ih page.after (n - ds.length) more h1 hrec
              simp only [List.length_append]
              push_cast
              omega

/-- The listing page loop never yields more items than a positive budget. -/
theorem listingLoop_bound (net : Option String → Int → Except TransErr ListPage)
    (fmtDate : Int → Option String) (full : Bool) :
    ∀ (fuel : Nat) (after : Option String) (n : Int) (out : List SubDict),
    1 ≤ n → listingLoop net fmtDate full fuel after (some n) = .ok out →
    (out.length : Int) ≤ n := by
  intro fuel
  induction fuel with
  | zero =>
    intro after n out hn h
    simp [listingLoop] at h
  | succ fuel ih =>
    intro after n out hn h
    simp only [listingLoop] at h
    cases hp : net (truthyOpt after) (reqLimit (some n)) with
    | error e => rw [hp] at h; simp at h
    | ok page =>
      rw [hp] at h
      simp only [except_mapError_ok, except_bind_ok] at h
      rcases hpi : listingPageItems fmtDate full page.children (some n) with ⟨ds, rem', stop⟩
      rw [hpi] at h
      obtain ⟨hlen, hrem, hstop⟩ :=
        listingPageItems_spec fmtDate full page.children n ds rem' stop hn hpi
      simp only at h
      by_cases hs : stop = true
      · rw [if_pos hs] at h
        simp only [Except.ok.injEq] at h
        subst h
        exact hlen
      · rw [if_neg hs] at h
        by_cases ha : truthyOpt page.after = none
        · rw [if_pos ha] at h
          simp only [Except.ok.injEq] at h
          subst h
          exact hlen
        · rw [if_neg ha] at h
          by_cases hc : page.children.isEmpty
          · rw [if_pos hc] at h
            simp only [Except.ok.injEq] at h
            subst h
            exact hlen
          · rw [if_neg hc] at h
            subst hrem
            cases hrec : listingLoop net fmtDate full fuel page.after (some (n - ds.length)) with
            | error e => rw [hrec] at h; simp at h
            | ok more =>
              rw [hrec] at h
              simp only [except_bind_ok, Except.ok.injEq] at h
              subst h
              have h1 : 1 ≤ n - (ds.length : Int) := hstop (by simpa using hs)
              have h2 := ih page.after (n - ds.length) more h1 hrec
              simp only [List.length_append]
              push_cast
              omega

/-! ## Claims -/

/-- C1.  For every comment tree walked by the flattener, every emitted
Comment Record's depth equals its structural nesting level counted from
the submission (0-based, 0 = direct reply), and every comment revealed by
expanding a placeholder is walked at, and records, the same depth as its
originating placeholder, not that depth plus one: the walk coincides —
record for record, and in particular depth for depth — with first
expanding the tree (`expandT`, which splices each expansion in place at
the placeholder's own level) and then flattening it in pre-order with the
depth of a node being its nesting level (`pureFlatten`: level `d` at the
node, `d + 1` for its replies, and depth `d` stored in the record). -/
theorem claim1_depth_invariant :
    (∀ (net : List String → Except TransErr (List Thing)) (fmtDate : Int → Option String)
        (more_limit : Option Nat) (fuel : Nat) (things : List Thing)
        (depth more_used : Nat) (reqs : List (List String)),
      walkF net fmtDate more_limit fuel things depth more_used reqs =
        (expandT net more_limit fuel things more_used reqs).map
          fun x => (pureFlatten fmtDate x.1 depth, x.2)) ∧
    (∀ (fmtDate : Int → Option String) (dat : CData) (replies rest : List Thing) (d : Nat),
      pureFlatten fmtDate (Thing.t1 dat replies :: rest) d =
        mkRec fmtDate dat d ::
          (pureFlatten fmtDate replies (d + 1) ++ pureFlatten fmtDate rest d)) ∧
    (∀ (fmtDate : Int → Option String) (dat : CData) (d : Nat),
      (mkRec fmtDate dat d).depth = d) := by
  refine ⟨walkF_eq_expandT, ?_, fun _ _ _ => rfl⟩
  intro fmtDate dat replies rest d
  simp [pureFlatten]

/-- C2.  For every expansion budget `k`, a single flattening expands at
most `k` placeholder groups, each expanded group consuming exactly one
budget unit and one secondary request regardless of how many child ids it
holds (the request log has exactly one entry per consumed unit); with
budget 0 nothing is expanded and the walk emits exactly the initial tree's
comments for any oracle; and an absent budget (`None`) is unlimited: any
run it produces is reproduced verbatim by every finite budget at least as
large as the number of groups that run expanded, so `None` never
suppresses an expansion. -/
theorem claim2_expansion_budget :
    (∀ (net : List String → Except TransErr (List Thing)) (fmtDate : Int → Option String)
        (k fuel : Nat) (things : List Thing) (depth : Nat)
        (recs : List CommentRec) (u' : Nat) (q' : List (List String)),
      walkF net fmtDate (some k) fuel things depth 0 [] = .ok (recs, u', q') →
      u' ≤ k ∧ q'.length = u') ∧
    (∀ (net : List String → Except TransErr (List Thing)) (fmtDate : Int → Option String)
        (fuel : Nat) (things : List Thing) (depth more_used : Nat)
        (reqs : List (List String)),
      walkF net fmtDate (some 0) fuel things depth more_used reqs =
        .ok (pureFlatten fmtDate (pruneMore things) depth, more_used, reqs)) ∧
    (∀ (net : List String → Except TransErr (List Thing)) (fmtDate : Int → Option String)
        (fuel : Nat) (things : List Thing) (depth : Nat)
        (recs : List CommentRec) (u' : Nat) (q' : List (List String)),
      walkF net fmtDate none fuel things depth 0 [] = .ok (recs, u', q') →
      ∀ k, u' ≤ k →
      walkF net fmtDate (some k) fuel things depth 0 [] = .ok (recs, u', q')) := by
  refine ⟨?_, ?_, ?_⟩
  · intro net fmtDate k fuel things depth recs u' q' h
    rw [walkF_eq_expandT] at h
    cases he : expandT net (some k) fuel things 0 [] with
    | error e => rw [he] at h; simp at h
    | ok r =>
      obtain ⟨F', u'', q''⟩ := r
      rw [he] at h
      simp only [except_map_ok, Except.ok.injEq, Prod.mk.injEq] at h
      obtain ⟨-, hu, hq⟩ := h
      subst hu; subst hq
      refine ⟨expandT_bound net k fuel things 0 [] F' u'' q'' (Nat.zero_le k) he, ?_⟩
      obtain ⟨qe, hq, hu⟩ := expandT_state net (some k) fuel things 0 [] F' u'' q'' he
      simp [hq, hu]
  · intro net fmtDate fuel things depth more_used reqs
    rw [walkF_eq_expandT, expandT_budget0]
    rfl
  · intro net fmtDate fuel things depth recs u' q' h k hk
    rw [walkF_eq_expandT] at h
    rw [walkF_eq_expandT]
    cases he : expandT net none fuel things 0 [] with
    | error e => rw [he] at h; simp at h
    | ok r =>
      obtain ⟨F', u'', q''⟩ := r
      rw [he] at h
      simp only [except_map_ok, Except.ok.injEq, Prod.mk.injEq] at h
      obtain ⟨hr, hu, hq⟩ := h
      subst hu; subst hq
      rw [expandT_none_eq_some net fuel things 0 [] F' u'' q'' he k hk]
      simp [hr]

/-- Witness for C2: the forest `[more ["a"]]` with an oracle revealing no
further nodes expands exactly one group under budget 1 (and under no
budget), issuing exactly one request. -/
theorem claim2_witness :
    (1 ≤ 1 ∧ ([["a"]] : List (List String)).length = 1) ∧
    walkF (fun _ => .ok []) (fun _ => none) (some 1) 0 [Thing.more ["a"]] 0 0 [] =
      .ok ([], 1, [["a"]]) := by
  have hrun : walkF (fun _ => .ok ([] : List Thing)) (fun _ => none) none 0
      [Thing.more ["a"]] 0 0 [] = .ok ([], 1, [["a"]]) := by
    simp [walkF, budgetExhausted, _fetch_more_children]
  have hrun2 : walkF (fun _ => .ok ([] : List Thing)) (fun _ => none) (some 1) 0
      [Thing.more ["a"]] 0 0 [] = .ok ([], 1, [["a"]]) :=
    claim2_expansion_budget.2.2 _ _ _ _ _ _ _ _ hrun 1 (by decide)
  exact ⟨claim2_expansion_budget.1 _ _ _ _ _ _ _ _ _ hrun2, hrun2⟩

/-- C3.  For every submission attribute bag, the extracted `media_urls`
list has no duplicates, is a subsequence of the raw candidate list (first
occurrences kept, relative order preserved: it equals the canonical
first-occurrence deduplication `specDedup`), contains exactly the
candidate urls, and the candidates are accumulated in the fixed precedence
direct link → preview sources/resolutions → gallery → hosted video;
`primary_media_url` is the head of `media_urls` (absent when empty). -/
theorem claim3_media_dedup :
    ∀ info : SubInfo,
      ((_extract_media info).media_urls).Nodup ∧
      List.Sublist ((_extract_media info).media_urls) (rawMediaCandidates info) ∧
      (∀ u, u ∈ (_extract_media info).media_urls ↔ u ∈ rawMediaCandidates info) ∧
      (_extract_media info).media_urls = specDedup (rawMediaCandidates info) ∧
      (_extract_media info).primary_media_url = ((_extract_media info).media_urls).head? ∧
      rawMediaCandidates info =
        directCands info ++ previewCands info ++ galleryCands info ++ videoCands info := by
  intro info
  refine ⟨dedupSeen_nodup _ _, dedupSeen_sublist _ _, ?_, dedupSeen_eq_specDedup _, rfl, rfl⟩
  intro u
  rw [show (_extract_media info).media_urls = dedupSeen (rawMediaCandidates info) [] from rfl,
    mem_dedupSeen]
  simp

/-- C5.  A comment record's parent-linkage fields are derived solely
from the raw upstream parent reference: a `"t1_"`-prefixed reference
yields `parent_id` with the prefix stripped and `is_top_level = false`; a
`"t3_"`-prefixed reference yields no `parent_id` and `is_top_level =
true`; any other or missing form yields no `parent_id` and `is_top_level =
false`.  The record stores exactly `parentLink` of the reference (a
function of the reference alone), plus the raw reference itself. -/
theorem claim5_parent_linkage :
    (∀ pfn : Option String,
      parentLink pfn =
        match pfn with
        | some s =>
          if strStartsWith s "t1_" then (some (s.drop 3), false)
          else if strStartsWith s "t3_" then (none, true)
          else (none, false)
        | none => (none, false)) ∧
    (∀ (fmtDate : Int → Option String) (dat : CData) (depth : Nat),
      (mkRec fmtDate dat depth).parent_fullname = dat.parent_id ∧
      (mkRec fmtDate dat depth).parent_id = (parentLink dat.parent_id).1 ∧
      (mkRec fmtDate dat depth).in_reply_to = (parentLink dat.parent_id).1 ∧
      (mkRec fmtDate dat depth).is_top_level = (parentLink dat.parent_id).2) := by
  constructor
  · intro pfn
    match pfn with
    | none => rfl
    | some s =>
      by_cases h : s = ""
      · subst h
        decide
      · simp [parentLink, h]
  · intro fmtDate dat depth
    exact ⟨rfl, rfl, rfl, rfl⟩

/-- C6.  At every entry point the raw-attachment field(s) are present
in the output record exactly when the resolved `full` flag is true, the
attachment changes no other field (the `full = true` record is the
`full = false` record with only the raw field(s) set), and the flag is
resolved identically everywhere: an explicit per-call value wins (the
client default is then irrelevant), otherwise the client-wide default
applies. -/
theorem claim6_full_resolution :
    (∀ (full : Bool) (info : SRInfo), (mkSRDict full info).raw.isSome = full) ∧
    (∀ info : SRInfo, mkSRDict true info = { mkSRDict false info with raw := some info }) ∧
    (∀ (fmtDate : Int → Option String) (full : Bool) (info : SubInfo),
      (mkSubDict fmtDate full info).raw.isSome = full) ∧
    (∀ (fmtDate : Int → Option String) (info : SubInfo),
      mkSubDict fmtDate true info = { mkSubDict fmtDate false info with raw := some info }) ∧
    (∀ (fmtDate : Int → Option String) (full : Bool) (raw : RawResp) (cs : List CommentRec),
      (submissionDict fmtDate full raw cs).raw_response.isSome = full ∧
      (submissionDict fmtDate full raw cs).raw_link.isSome = full ∧
      (submissionDict fmtDate full raw cs).raw_comments_listing.isSome = full) ∧
    (∀ (fmtDate : Int → Option String) (raw : RawResp) (cs : List CommentRec),
      submissionDict fmtDate true raw cs =
        { submissionDict fmtDate false raw cs with
            raw_response := some raw
            raw_link := some raw.link
            raw_comments_listing := some raw.comments }) ∧
    (∀ (net : Option String → Int → Except TransErr SearchPage) (limit : Option Int)
        (b d d' : Bool) (fuel : Nat),
      Reddit.search_subreddits net limit (some b) d fuel =
        Reddit.search_subreddits net limit (some b) d' fuel) ∧
    (∀ (net : Option String → Int → Except TransErr SearchPage) (limit : Option Int)
        (d : Bool) (fuel : Nat),
      Reddit.search_subreddits net limit none d fuel =
        Reddit.search_subreddits net limit (some d) d fuel) ∧
    (∀ (net : Option String → Int → Except TransErr ListPage)
        (fmtDate : Int → Option String) (limit : Option Int) (b d d' : Bool) (fuel : Nat),
      Subreddit._listing net fmtDate limit (some b) d fuel =
        Subreddit._listing net fmtDate limit (some b) d' fuel) ∧
    (∀ (net : Option String → Int → Except TransErr ListPage)
        (fmtDate : Int → Option String) (limit : Option Int) (d : Bool) (fuel : Nat),
      Subreddit._listing net fmtDate limit none d fuel =
        Subreddit._listing net fmtDate limit (some d) d fuel) ∧
    (∀ (netGet : Except TransErr RawResp)
        (netMore : String → List String → Except TransErr (List Thing))
        (fmtDate : Int → Option String) (ml : Option Nat) (b d d' : Bool) (fuel : Nat),
      Reddit.submission netGet netMore fmtDate ml (some b) d fuel =
        Reddit.submission netGet netMore fmtDate ml (some b) d' fuel) ∧
    (∀ (netGet : Except TransErr RawResp)
        (netMore : String → List String → Except TransErr (List Thing))
        (fmtDate : Int → Option String) (ml : Option Nat) (d : Bool) (fuel : Nat),
      Reddit.submission netGet netMore fmtDate ml none d fuel =
        Reddit.submission netGet netMore fmtDate ml (some d) d fuel) := by
  refine ⟨fun full info => ?_, fun info => rfl, fun fmtDate full info => ?_,
    fun fmtDate info => rfl, fun fmtDate full raw cs => ⟨?_, ?_, ?_⟩,
    fun fmtDate raw cs => rfl, fun _ _ _ _ _ _ => rfl, fun _ _ _ _ => rfl,
    fun _ _ _ _ _ _ _ => rfl, fun _ _ _ _ _ => rfl, ?_, ?_⟩
  · cases full <;> rfl
  · cases full <;> rfl
  · cases full <;> rfl
  · cases full <;> rfl
  · cases full <;> rfl
  · intro netGet netMore fmtDate ml b d d' fuel
    simp only [Reddit.submission, Option.getD_some]
  · intro netGet netMore fmtDate ml d fuel
    simp only [Reddit.submission, Option.getD_some, Option.getD_none]

/-- C7.  A non-success HTTP status raises a transport failure
(`Reddit._get` returns the error), and such a failure propagates
synchronously and unrecoverably: a failing page fetch makes the whole
listing or search return exactly that error (no partial results), a
failing comments fetch makes the whole submission fetch fail, and a
failing placeholder expansion makes the whole comment walk return exactly
that error whenever the tree contains an expandable placeholder (otherwise
no request is issued at all); no branch retries. -/
theorem claim7_transport_failure :
    (∀ (J : Type) (resp : HttpResp J),
      Reddit._get resp = if resp.ok then .ok resp.body else .error (.http resp.status)) ∧
    (∀ (e : TransErr) (fmtDate : Int → Option String) (full : Bool) (fuel : Nat)
        (after : Option String) (rem : Option Int),
      listingLoop (fun _ _ => .error e) fmtDate full (fuel + 1) after rem =
        .error (.net e)) ∧
    (∀ (e : TransErr) (full : Bool) (fuel : Nat) (after : Option String) (rem : Option Int),
      searchLoop (fun _ _ => .error e) full (fuel + 1) after rem = .error (.net e)) ∧
    (∀ (e : TransErr) (netMore : String → List String → Except TransErr (List Thing))
        (fmtDate : Int → Option String) (ml : Option Nat) (full : Option Bool)
        (d : Bool) (fuel : Nat),
      Reddit.submission (.error e) netMore fmtDate ml full d fuel = .error (.net e)) ∧
    (∀ (e : TransErr) (fmtDate : Int → Option String) (fuel : Nat) (things : List Thing)
        (depth more_used : Nat) (reqs : List (List String)),
      walkF (fun _ => .error e) fmtDate none fuel things depth more_used reqs =
        if hasMore things then .error (.net e)
        else .ok (pureFlatten fmtDate (pruneMore things) depth, more_used, reqs)) := by
  refine ⟨fun J resp => rfl, fun e fmtDate full fuel after rem => rfl,
    fun e full fuel after rem => rfl, fun e netMore fmtDate ml full d fuel => rfl, ?_⟩
  intro e fmtDate fuel things depth more_used reqs
  rw [walkF_eq_expandT, expandT_err]
  by_cases hm : hasMore things <;> simp [hm]

/-- C8.  A submission whose url ends (case-insensitively) in a media
extension and which has no preview, gallery, or media substructures
extracts exactly that url: `media_urls = [url]` and `primary_media_url =
url`. -/
theorem claim8_direct_media_url :
    ∀ (info : SubInfo) (u : String),
    info.url = some u →
    mediaExts.any (fun ext => strEndsWith (strLower u) ext) = true →
    info.preview = none → info.gallery_data = none → info.media_metadata = none →
    info.media = none → info.secure_media = none →
    _extract_media info = ⟨[u], some u⟩ := by
  intro info u hu hext hp hg hm hmedia hsec
  have hcand : rawMediaCandidates info = [u] := by
    simp [rawMediaCandidates, directCands, previewCands, galleryCands, videoCands,
      hu, hext, hp, hg, hm, hmedia, hsec]
  simp only [_extract_media, hcand]
  simp [dedupSeen]

/-- Witness for C8 at a concrete `.png` url. -/
theorem claim8_witness :
    _extract_media { id := "p", url := some "https://i.redd.it/a.png" } =
      ⟨["https://i.redd.it/a.png"], some "https://i.redd.it/a.png"⟩ :=
  claim8_direct_media_url _ "https://i.redd.it/a.png" rfl (by decide) rfl rfl rfl rfl rfl

/-- C9.  A listing page's item loop normalizes and yields exactly the
children tagged `"t3"`: removing the other children beforehand changes
nothing — neither the yielded records, nor the remaining budget, nor the
early-stop flag — so skipped children never consume budget. -/
theorem claim9_listing_t3_filter :
    ∀ (fmtDate : Int → Option String) (full : Bool) (children : List LChild)
      (rem : Option Int),
    listingPageItems fmtDate full children rem =
      listingPageItems fmtDate full
        (children.filter fun c => decide (c.kind = some "t3")) rem := by
  intro fmtDate full children
  induction children with
  | nil => intro rem; rfl
  | cons child rest ih =>
    intro rem
    by_cases hk : child.kind = some "t3"
    · rw [List.filter_cons_of_pos (by simp [hk])]
      simp only [listingPageItems, ih]
    · rw [List.filter_cons_of_neg (by simp [hk])]
      simp only [listingPageItems, if_pos hk, ih]

/-- C10.  A placeholder whose child-id list is empty (or absent, which
parses to the empty list) is skipped entirely by the walk — same records,
same budget counter, same request log as if it were not there — and the
More-Fetcher called with an empty id list answers `[]` without consulting
the transport at all (the result is the same for every oracle). -/
theorem claim10_empty_placeholder :
    (∀ net : List String → Except TransErr (List Thing),
      _fetch_more_children net [] = .ok []) ∧
    (∀ (net : List String → Except TransErr (List Thing)) (fmtDate : Int → Option String)
        (more_limit : Option Nat) (fuel : Nat) (rest : List Thing)
        (depth more_used : Nat) (reqs : List (List String)),
      walkF net fmtDate more_limit fuel (Thing.more [] :: rest) depth more_used reqs =
        walkF net fmtDate more_limit fuel rest depth more_used reqs) := by
  refine ⟨fun net => rfl, ?_⟩
  intro net fmtDate ml fuel rest depth u q
  by_cases hb : budgetExhausted ml u
  · simp [walkF, hb]
  · simp [walkF, hb]

/-- C4 (amended).  For every total-result budget `N ≥ 1` and every
sequence of pages, the listing and search paginators yield at most `N`
items in total (the budget check after each yielded item stops the
traversal mid-page); each page is requested with size `min(remaining,
100)`, or 100 when the budget is unbounded; and traversal halts right
after a page whose continuation cursor is falsy or whose child list is
empty, yielding only that page's items, even if `N` has not been reached.
(For `N ≤ 0` the code still requests one page and can yield one item —
see the counterexample — which is why `N ≥ 1` is required.) -/
theorem claim4_paginator_budget :
    (∀ (net : Option String → Int → Except TransErr ListPage)
        (fmtDate : Int → Option String) (full : Bool) (fuel : Nat)
        (after : Option String) (n : Int) (out : List SubDict),
      1 ≤ n → listingLoop net fmtDate full fuel after (some n) = .ok out →
      (out.length : Int) ≤ n) ∧
    (∀ (net : Option String → Int → Except TransErr SearchPage) (full : Bool) (fuel : Nat)
        (after : Option String) (n : Int) (out : List SRDict),
      1 ≤ n → searchLoop net full fuel after (some n) = .ok out →
      (out.length : Int) ≤ n) ∧
    (∀ r : Int, reqLimit (some r) = min r 100) ∧
    reqLimit none = 100 ∧
    (∀ (net : Option String → Int → Except TransErr ListPage)
        (fmtDate : Int → Option String) (full : Bool) (fuel : Nat)
        (after : Option String) (rem : Option Int) (page : ListPage),
      net (truthyOpt after) (reqLimit rem) = .ok page →
      truthyOpt page.after = none ∨ page.children.isEmpty = true →
      listingLoop net fmtDate full (fuel + 1) after rem =
        .ok (listingPageItems fmtDate full page.children rem).1) ∧
    (∀ (net : Option String → Int → Except TransErr SearchPage) (full : Bool) (fuel : Nat)
        (after : Option String) (rem : Option Int) (page : SearchPage),
      net (truthyOpt after) (reqLimit rem) = .ok page →
      truthyOpt page.after = none ∨ page.children.isEmpty = true →
      searchLoop net full (fuel + 1) after rem =
        .ok (searchPageItems full page.children rem).1) := by
  refine ⟨listingLoop_bound, searchLoop_bound, fun r => rfl, rfl, ?_, ?_⟩
  · intro net fmtDate full fuel after rem page hp hstop
    simp only [listingLoop, hp, except_mapError_ok, except_bind_ok]
    rcases hpi : listingPageItems fmtDate full page.children rem with ⟨ds, rem', stop⟩
    simp only
    by_cases hs : stop = true
    · rw [if_pos hs]
    · rw [if_neg hs]
      rcases hstop with ha | hc
      · rw [if_pos ha]
      · by_cases ha : truthyOpt page.after = none
        · rw [if_pos ha]
        · rw [if_neg ha, if_pos hc]
  · intro net full fuel after rem page hp hstop
    simp only [searchLoop, hp, except_mapError_ok, except_bind_ok]
    rcases hpi : searchPageItems full page.children rem with ⟨ds, rem', stop⟩
    simp only
    by_cases hs : stop = true
    · rw [if_pos hs]
    · rw [if_neg hs]
      rcases hstop with ha | hc
      · rw [if_pos ha]
      · by_cases ha : truthyOpt page.after = none
        · rw [if_pos ha]
        · rw [if_neg ha, if_pos hc]

/-- Witness for C4 (amended): a single one-item page under budget 2, for
both paginators. -/
theorem claim4_paginator_budget_witness :
    ((1 : Int) ≤ 2 ∧
      listingLoop
        (fun _ _ => .ok { children := [{ kind := some "t3", data := { id := "p1" } }],
                          after := none })
        (fun _ => none) false 1 none (some 2) =
        .ok [mkSubDict (fun _ => none) false { id := "p1" }] ∧
      (([mkSubDict (fun _ => none) false { id := "p1" }].length : Int) ≤ 2)) ∧
    ((([mkSRDict false { id := "s1", display_name := "r" }].length : Int) ≤ 2)) := by
  have hl : listingLoop
      (fun _ _ => .ok { children := [{ kind := some "t3", data := { id := "p1" } }],
                        after := none })
      (fun _ => none) false 1 none (some 2) =
      .ok [mkSubDict (fun _ => none) false { id := "p1" }] := by
    simp [listingLoop, listingPageItems, truthyOpt, reqLimit]
  have hs : searchLoop
      (fun _ _ => .ok { children := [{ id := "s1", display_name := "r" }], after := none })
      false 1 none (some 2) =
      .ok [mkSRDict false { id := "s1", display_name := "r" }] := by
    simp [searchLoop, searchPageItems, truthyOpt, reqLimit]
  refine ⟨⟨by decide, hl, ?_⟩, ?_⟩
  · exact claim4_paginator_budget.1 _ _ false 1 none 2 _ (by decide) hl
  · exact claim4_paginator_budget.2.1 _ false 1 none 2 _ (by decide) hs

/-- Counterexample to C4 as stated: with total budget `N = 0` the listing
paginator still requests one page (of size `min(0, 100) = 0`) and, when
that page comes back nonempty, yields one item — more than `N`.  (The
budget is only checked after each yielded item.) -/
theorem claim4_counterexample :
    (listingLoop
        (fun _ _ => .ok { children := [{ kind := some "t3", data := { id := "p1" } }],
                          after := none })
        (fun _ => none) false 1 none (some 0)).map List.length = .ok 1 ∧
    ¬ ((1 : Int) ≤ 0) := by
  constructor
  · simp [listingLoop, listingPageItems, truthyOpt, reqLimit]
  · decide

end MiniPraw
